import Mathlib

/-!
Verification of the overlap-merge algorithm of the nestjs-task-manager
repository (src/src/event/event.service.ts), as a shallow embedding.

Events carry an id, title, optional description, start/end instants
(modelled as integers, e.g. epoch milliseconds), a status string and an
invitee list (users modelled by their identifiers).  The store is a list
of events; fetching, bulk save (upsert) and delete-by-ids are modelled as
pure functions on that list.
-/

namespace EventService

/-- Shallow embedding of the Event entity: id, title, optional
description, start/end instants (integers), status and invitee user ids. -/
structure Event where
  id : Nat
  title : String
  description : Option String
  startTime : Int
  endTime : Int
  status : String
  invitees : List Nat
  deriving Repr, DecidableEq

/-- Embedding of what JavaScript Set construction does to the spread
concatenation of two invitee lists: keep the first occurrence of each
element, in order (dedupFirst l seen drops elements already seen). -/
def dedupFirst : List Nat → List Nat → List Nat
  | [], _ => []
  | x :: xs, seen => if x ∈ seen then dedupFirst xs seen else x :: dedupFirst xs (x :: seen)

/-- Array.from(new Set([...a, ...b])) on identifier lists. -/
def jsSetUnion (a b : List Nat) : List Nat :=
  dedupFirst (a ++ b) []

/-- isOverlapping from event.service.ts: event1.endTime > event2.startTime
and event1.startTime < event2.endTime, strict inequalities. -/
def isOverlapping (event1 event2 : Event) : Bool :=
  decide (event1.endTime > event2.startTime) && decide (event1.startTime < event2.endTime)

/-- mergeEvents from event.service.ts: fold event2 into event1,
taking min of startTimes, max of endTimes, comma-space joined titles,
space-joined descriptions (empty string for an absent one), status forced
to IN_PROGRESS, invitees merged through a JavaScript Set; all other
fields (in particular the id) stay those of event1. -/
def mergeEvents (event1 event2 : Event) : Event :=
  { event1 with
    startTime := min event1.startTime event2.startTime
    endTime := max event1.endTime event2.endTime
    title := event1.title ++ ", " ++ event2.title
    description := some ((event1.description.getD "") ++ " " ++ (event2.description.getD ""))
    status := "IN_PROGRESS"
    invitees := jsSetUnion event1.invitees event2.invitees }

/-- The sweep loop of mergeAllOverlappingEvents: one pass over the fetched
events with an optional current accumulator; an event overlapping the
accumulator is folded into it, otherwise the accumulator is emitted and
the event opens a new one; a final accumulator is emitted at the end. -/
def sweep : List Event → Option Event → List Event
  | [], none => []
  | [], some acc => [acc]
  | e :: es, none => sweep es (some e)
  | e :: es, some acc =>
    if isOverlapping acc e then sweep es (some (mergeEvents acc e))
    else acc :: sweep es (some e)

/-- removeOriginalEvents from event.service.ts: the ids passed to the
store's delete are the fetched events' ids that do not appear among the
merged events' ids. -/
def removeOriginalEvents (originalEvents mergedEvents : List Event) : List Nat :=
  (originalEvents.map Event.id).filter (fun i => !((mergedEvents.map Event.id).contains i))

/-- Executable form of the fetch-order precondition: the event list is
ascending by startTime. -/
def sortedByStart : List Event → Bool
  | [] => true
  | [_] => true
  | a :: b :: rest => decide (a.startTime ≤ b.startTime) && sortedByStart (b :: rest)

/-- Stable insertion of an event into a startTime-ascending list. -/
def insertByStart (e : Event) : List Event → List Event
  | [] => [e]
  | x :: xs => if e.startTime < x.startTime then e :: x :: xs else x :: insertByStart e xs

/-- Stable sort by ascending startTime, modelling the ORDER BY of the
fetch query. -/
def sortByStart : List Event → List Event
  | [] => []
  | e :: es => insertByStart e (sortByStart es)

/-- The fetch of mergeAllOverlappingEvents: all store events having the
requesting user among their invitees, ordered ascending by startTime. -/
def fetchEventsForUser (store : List Event) (userId : Nat) : List Event :=
  sortByStart (store.filter (fun e => e.invitees.contains userId))

/-- Bulk save with upsert semantics: an event whose id is present updates
that record in place, otherwise it is appended. -/
def saveAll (store : List Event) (toSave : List Event) : List Event :=
  toSave.foldl
    (fun st e =>
      if st.any (fun x => x.id == e.id) then st.map (fun x => if x.id == e.id then e else x)
      else st ++ [e])
    store

/-- Delete by ids; deleting an absent id is a no-op. -/
def deleteByIds (store : List Event) (ids : List Nat) : List Event :=
  store.filter (fun e => !(ids.contains e.id))

/-- The observable outcome of one merge run: the returned sequence, the
argument of the bulk save, the ids passed to delete, and the store after
both writes. -/
structure MergeOutcome where
  result : List Event
  savedEvents : List Event
  deletedIds : List Nat
  finalStore : List Event
  deriving Repr, DecidableEq

/-- mergeAllOverlappingEvents from event.service.ts: fetch the user's
events ordered by startTime, sweep them into merged accumulators, save
the merged events, then delete the fetched ids absent from the merged
ids. -/
def mergeAllOverlappingEvents (store : List Event) (userId : Nat) : MergeOutcome :=
  let events := fetchEventsForUser store userId
  let mergedEvents := sweep events none
  let deleted := removeOriginalEvents events mergedEvents
  { result := mergedEvents
    savedEvents := mergedEvents
    deletedIds := deleted
    finalStore := deleteByIds (saveAll store mergedEvents) deleted }

/-- findOne from event.service.ts: look up a single event by id (the
model's events always carry their invitee relation); a missing id raises
NotFoundException naming the id, modelled as the error branch. -/
def findOne (store : List Event) (id : Nat) : Except String Event :=
  match store.find? (fun e => e.id == id) with
  | some event => Except.ok event
  | none => Except.error ("Event with ID " ++ toString id ++ " not found")

/-- update from event.service.ts: apply the patch to the records matching
the id (the repository update), then return the result of a fresh findOne
on the same id, together with the updated store.  The patch stands for
the Partial update data applied to a row. -/
def update (store : List Event) (id : Nat) (patch : Event → Event) :
    List Event × Except String Event :=
  let afterUpdate := store.map (fun e => if e.id == id then patch e else e)
  (afterUpdate, findOne afterUpdate id)

/-- Grouping of the fetched list into the runs the sweep actually merges:
clustersGo walks the remaining events with the current accumulator acc
and the current run (head h, tail t); an event overlapping acc joins the
run, otherwise the run is closed and the event opens a new one. -/
def clustersGo : List Event → Event → Event → List Event → List (Event × List Event)
  | [], _, h, t => [(h, t)]
  | e :: es, acc, h, t =>
    if isOverlapping acc e then clustersGo es (mergeEvents acc e) h (t ++ [e])
    else (h, t) :: clustersGo es e e []

/-- The accumulator-connected clusters of an event list, each as a pair
of its first event and the later events folded into the accumulator. -/
def clusters : List Event → List (Event × List Event)
  | [] => []
  | e :: es => clustersGo es e e []

/-- The event a cluster collapses to: its later events folded left into
its first event by mergeEvents. -/
def clusterAcc (c : Event × List Event) : Event :=
  c.2.foldl mergeEvents c.1

/-- Modelled from the spec glossary wording (for comparison against the
code, not taken from the source): counting maximal runs in which each
event overlaps its immediate neighbor in sorted order. -/
def specNeighborClusterGo : Event → List Event → Nat
  | _, [] => 1
  | a, b :: bs => (if isOverlapping a b then 0 else 1) + specNeighborClusterGo b bs

/-- Modelled from the spec glossary wording: the number of neighbor-
chained clusters of a list. -/
def specNeighborClusterCount : List Event → Nat
  | [] => 0
  | e :: es => specNeighborClusterGo e es

@[simp] theorem mergeEvents_id (a b : Event) : (mergeEvents a b).id = a.id := rfl

@[simp] theorem mergeEvents_startTime (a b : Event) :
    (mergeEvents a b).startTime = min a.startTime b.startTime := rfl

@[simp] theorem mergeEvents_endTime (a b : Event) :
    (mergeEvents a b).endTime = max a.endTime b.endTime := rfl

@[simp] theorem mergeEvents_invitees (a b : Event) :
    (mergeEvents a b).invitees = jsSetUnion a.invitees b.invitees := rfl

theorem foldl_merge_id (t : List Event) (h : Event) : (t.foldl mergeEvents h).id = h.id := by
  induction t generalizing h with
  | nil => rfl
  | cons x xs ih => rw [List.foldl_cons, ih (mergeEvents h x)]; rfl

theorem clusterAcc_id (c : Event × List Event) : (clusterAcc c).id = c.1.id :=
  foldl_merge_id c.2 c.1

theorem foldl_merge_startTime (t : List Event) (h : Event)
    (hle : ∀ e ∈ t, h.startTime ≤ e.startTime) :
    (t.foldl mergeEvents h).startTime = h.startTime := by
  induction t generalizing h with
  | nil => rfl
  | cons x xs ih =>
    have hx : (mergeEvents h x).startTime = h.startTime := by
      simp [mergeEvents, min_eq_left (hle x (List.mem_cons_self x xs))]
    rw [List.foldl_cons,
      ih (mergeEvents h x) (fun e he => by rw [hx]; exact hle e (List.mem_cons_of_mem _ he)), hx]

theorem sweep_eq_clustersGo (es : List Event) (acc h : Event) (t : List Event)
    (hacc : acc = clusterAcc (h, t)) :
    sweep es (some acc) = (clustersGo es acc h t).map clusterAcc := by
  induction es generalizing acc h t with
  | nil => simp [sweep, clustersGo, hacc]
  | cons e rest ih =>
    by_cases hov : isOverlapping acc e = true
    · rw [show sweep (e :: rest) (some acc) = sweep rest (some (mergeEvents acc e)) by
        simp [sweep, hov]]
      rw [show clustersGo (e :: rest) acc h t = clustersGo rest (mergeEvents acc e) h (t ++ [e]) by
        simp [clustersGo, hov]]
      refine ih (mergeEvents acc e) h (t ++ [e]) ?_
      rw [hacc]
      simp [clusterAcc, List.foldl_append]
    · rw [show sweep (e :: rest) (some acc) = acc :: sweep rest (some e) by
        simp [sweep, hov]]
      rw [show clustersGo (e :: rest) acc h t = (h, t) :: clustersGo rest e e [] by
        simp [clustersGo, hov]]
      rw [List.map_cons, ih e e [] rfl, hacc]

theorem sweep_eq_clusters (events : List Event) :
    sweep events none = (clusters events).map clusterAcc := by
  cases events with
  | nil => rfl
  | cons e es =>
    rw [show sweep (e :: es) none = sweep es (some e) from rfl,
      show clusters (e :: es) = clustersGo es e e [] from rfl]
    exact sweep_eq_clustersGo es e e [] rfl

theorem clustersGo_flat (es : List Event) (acc h : Event) (t : List Event) :
    (clustersGo es acc h t).flatMap (fun c => c.1 :: c.2) = (h :: t) ++ es := by
  induction es generalizing acc h t with
  | nil => simp [clustersGo]
  | cons e rest ih =>
    by_cases hov : isOverlapping acc e = true
    · rw [show clustersGo (e :: rest) acc h t = clustersGo rest (mergeEvents acc e) h (t ++ [e]) by
        simp [clustersGo, hov]]
      rw [ih]
      simp
    · rw [show clustersGo (e :: rest) acc h t = (h, t) :: clustersGo rest e e [] by
        simp [clustersGo, hov]]
      rw [List.flatMap_cons, ih]
      simp

theorem clusters_flat (events : List Event) :
    (clusters events).flatMap (fun c => c.1 :: c.2) = events := by
  cases events with
  | nil => rfl
  | cons e es =>
    rw [show clusters (e :: es) = clustersGo es e e [] from rfl, clustersGo_flat]
    rfl

theorem sortedByStart_tail (a : Event) (l : List Event) (h : sortedByStart (a :: l) = true) :
    sortedByStart l = true := by
  cases l with
  | nil => rfl
  | cons b bs =>
    simp only [sortedByStart, Bool.and_eq_true] at h
    exact h.2

theorem sortedByStart_head_le (a : Event) (l : List Event) (h : sortedByStart (a :: l) = true) :
    ∀ b ∈ l, a.startTime ≤ b.startTime := by
  induction l generalizing a with
  | nil => intro b hb; cases hb
  | cons c cs ih =>
    intro b hb
    simp only [sortedByStart, Bool.and_eq_true, decide_eq_true_eq] at h
    rcases List.mem_cons.mp hb with rfl | hb
    · exact h.1
    · exact le_trans h.1 (ih c h.2 b hb)

theorem sortedByStart_pairwise (l : List Event) (h : sortedByStart l = true) :
    l.Pairwise (fun a b => a.startTime ≤ b.startTime) := by
  induction l with
  | nil => exact List.Pairwise.nil
  | cons a l ih =>
    exact List.Pairwise.cons (sortedByStart_head_le a l h) (ih (sortedByStart_tail a l h))

theorem sweep_start_lowerBound (es : List Event) (acc : Event) (c : Int)
    (hacc : c ≤ acc.startTime) (hes : ∀ e ∈ es, c ≤ e.startTime) :
    ∀ x ∈ sweep es (some acc), c ≤ x.startTime := by
  induction es generalizing acc with
  | nil =>
    intro x hx
    simp only [sweep, List.mem_singleton] at hx
    exact hx ▸ hacc
  | cons e rest ih =>
    intro x hx
    by_cases hov : isOverlapping acc e = true
    · rw [show sweep (e :: rest) (some acc) = sweep rest (some (mergeEvents acc e)) by
        simp [sweep, hov]] at hx
      refine ih (mergeEvents acc e) ?_ (fun y hy => hes y (List.mem_cons_of_mem _ hy)) x hx
      simp only [mergeEvents_startTime]
      exact le_min hacc (hes e (List.mem_cons_self e rest))
    · rw [show sweep (e :: rest) (some acc) = acc :: sweep rest (some e) by
        simp [sweep, hov]] at hx
      rcases List.mem_cons.mp hx with rfl | hx
      · exact hacc
      · exact ih e (hes e (List.mem_cons_self e rest))
          (fun y hy => hes y (List.mem_cons_of_mem _ hy)) x hx

theorem sweep_pairwise_start (es : List Event) (acc : Event)
    (hs : es.Pairwise (fun a b => a.startTime ≤ b.startTime))
    (hacc : ∀ e ∈ es, acc.startTime ≤ e.startTime) :
    (sweep es (some acc)).Pairwise (fun a b => a.startTime ≤ b.startTime) := by
  induction es generalizing acc with
  | nil => simp [sweep]
  | cons e rest ih =>
    obtain ⟨hhead, htail⟩ := List.pairwise_cons.mp hs
    by_cases hov : isOverlapping acc e = true
    · rw [show sweep (e :: rest) (some acc) = sweep rest (some (mergeEvents acc e)) by
        simp [sweep, hov]]
      refine ih (mergeEvents acc e) htail ?_
      intro y hy
      simp only [mergeEvents_startTime]
      exact le_trans (min_le_left _ _) (hacc y (List.mem_cons_of_mem _ hy))
    · rw [show sweep (e :: rest) (some acc) = acc :: sweep rest (some e) by
        simp [sweep, hov]]
      refine List.Pairwise.cons ?_ (ih e htail hhead)
      intro x hx
      exact sweep_start_lowerBound rest e acc.startTime (hacc e (List.mem_cons_self e rest))
        (fun y hy => hacc y (List.mem_cons_of_mem _ hy)) x hx

theorem sweep_pairwise_endLe (es : List Event) (acc : Event)
    (hs : es.Pairwise (fun a b => a.startTime ≤ b.startTime))
    (hwf : ∀ e ∈ es, e.startTime < e.endTime)
    (hacc : ∀ e ∈ es, acc.startTime ≤ e.startTime) :
    (sweep es (some acc)).Pairwise (fun a b => a.endTime ≤ b.startTime) := by
  induction es generalizing acc with
  | nil => simp [sweep]
  | cons e rest ih =>
    obtain ⟨hhead, htail⟩ := List.pairwise_cons.mp hs
    by_cases hov : isOverlapping acc e = true
    · rw [show sweep (e :: rest) (some acc) = sweep rest (some (mergeEvents acc e)) by
        simp [sweep, hov]]
      refine ih (mergeEvents acc e) htail (fun y hy => hwf y (List.mem_cons_of_mem _ hy)) ?_
      intro y hy
      simp only [mergeEvents_startTime]
      exact le_trans (min_le_left _ _) (hacc y (List.mem_cons_of_mem _ hy))
    · rw [show sweep (e :: rest) (some acc) = acc :: sweep rest (some e) by
        simp [sweep, hov]]
      have hle : acc.endTime ≤ e.startTime := by
        by_contra hgt
        push_neg at hgt
        apply hov
        simp only [isOverlapping, Bool.and_eq_true, decide_eq_true_eq]
        exact ⟨hgt, lt_of_le_of_lt (hacc e (List.mem_cons_self e rest))
          (hwf e (List.mem_cons_self e rest))⟩
      refine List.Pairwise.cons ?_
        (ih e htail (fun y hy => hwf y (List.mem_cons_of_mem _ hy)) hhead)
      intro x hx
      exact le_trans hle
        (sweep_start_lowerBound rest e e.startTime (le_refl _) hhead x hx)

theorem mem_clusters_sublist (events : List Event) :
    ∀ c ∈ clusters events, (c.1 :: c.2).Sublist events := by
  intro c hc
  have key : ∀ L : List (Event × List Event), c ∈ L →
      (c.1 :: c.2).Sublist (L.flatMap fun x => x.1 :: x.2) := by
    intro L hcL
    induction L with
    | nil => cases hcL
    | cons d ds ih =>
      rw [List.flatMap_cons]
      rcases List.mem_cons.mp hcL with rfl | hcL
      · exact List.sublist_append_left _ _
      · exact (ih hcL).trans (List.sublist_append_right _ _)
  have h2 := key (clusters events) hc
  rwa [clusters_flat] at h2

theorem clusterAcc_startTime_of_sorted (events : List Event)
    (hs : sortedByStart events = true) :
    ∀ c ∈ clusters events, (clusterAcc c).startTime = c.1.startTime := by
  intro c hc
  have hp := (sortedByStart_pairwise events hs).sublist (mem_clusters_sublist events c hc)
  exact foldl_merge_startTime c.2 c.1 (List.pairwise_cons.mp hp).1

theorem isOverlapping_false_of_endLe (a b : Event) (h : a.endTime ≤ b.startTime) :
    isOverlapping a b = false ∧ isOverlapping b a = false := by
  constructor
  · cases hab : isOverlapping a b with
    | false => rfl
    | true =>
      exfalso
      simp only [isOverlapping, Bool.and_eq_true, decide_eq_true_eq] at hab
      omega
  · cases hab : isOverlapping b a with
    | false => rfl
    | true =>
      exfalso
      simp only [isOverlapping, Bool.and_eq_true, decide_eq_true_eq] at hab
      omega

/-- C1: folding B into the accumulator A takes the min of startTimes, the
max of endTimes, joins titles with comma-space (so a 3-way merge in
accumulation order yields title T1, T2, T3), joins descriptions with one
space using the empty string for an absent one, forces status to
IN_PROGRESS regardless of prior statuses, and keeps the accumulator's id
from A, never from B. -/
theorem c1_merge_fold_fields (A B : Event) :
    (mergeEvents A B).startTime = min A.startTime B.startTime ∧
    (mergeEvents A B).endTime = max A.endTime B.endTime ∧
    (mergeEvents A B).title = A.title ++ ", " ++ B.title ∧
    (mergeEvents A B).description =
      some ((A.description.getD "") ++ " " ++ (B.description.getD "")) ∧
    (mergeEvents A B).status = "IN_PROGRESS" ∧
    (mergeEvents A B).id = A.id ∧
    (∀ C : Event,
      (mergeEvents (mergeEvents A B) C).title = A.title ++ ", " ++ B.title ++ ", " ++ C.title) := by
  refine ⟨rfl, rfl, rfl, rfl, rfl, rfl, fun C => ?_⟩
  simp [mergeEvents, String.append_assoc]

/-- C2: the overlap predicate holds iff endTime of the first exceeds
startTime of the second and startTime of the first is below endTime of
the second, strictly; hence two back-to-back events sharing the boundary
instant (here 660, i.e. 11:00) do not overlap and the sweep returns both
unchanged. -/
theorem c2_overlap_strict :
    (∀ A B : Event,
      isOverlapping A B = true ↔ (A.endTime > B.startTime ∧ A.startTime < B.endTime)) ∧
    sweep [⟨1, "M1", none, 600, 660, "TODO", []⟩, ⟨2, "M2", none, 660, 720, "TODO", []⟩] none =
      [⟨1, "M1", none, 600, 660, "TODO", []⟩, ⟨2, "M2", none, 660, 720, "TODO", []⟩] := by
  constructor
  · intro A B
    simp [isOverlapping]
  · decide

/-- C5: on A(9:00-10:00), B(9:30-10:30), C(10:15-11:00) in minutes, each
inviting user 7, the merge run returns the single event 9:00-11:00 titled
A, B, C with the accumulator id 1; C is absorbed transitively although A
and C alone do not overlap, because the accumulator extended by B does
overlap C. -/
theorem c5_transitive_merge_scenario :
    (mergeAllOverlappingEvents
        [⟨1, "A", none, 540, 600, "TODO", [7]⟩,
         ⟨2, "B", none, 570, 630, "TODO", [7]⟩,
         ⟨3, "C", none, 615, 660, "TODO", [7]⟩] 7).result =
      [⟨1, "A, B, C", some "  ", 540, 660, "IN_PROGRESS", [7]⟩] ∧
    isOverlapping ⟨1, "A", none, 540, 600, "TODO", [7]⟩ ⟨3, "C", none, 615, 660, "TODO", [7]⟩
      = false ∧
    isOverlapping
      (mergeEvents ⟨1, "A", none, 540, 600, "TODO", [7]⟩ ⟨2, "B", none, 570, 630, "TODO", [7]⟩)
      ⟨3, "C", none, 615, 660, "TODO", [7]⟩ = true := by
  refine ⟨?_, by decide, by decide⟩
  decide

/-- C3 counterexample: the sorted list E1(0,100), E2(10,20), E3(30,40)
has two clusters under the spec glossary's neighbor-overlap reading (E2
and E3 do not overlap), yet the sweep emits a single event, because the
accumulator E1+E2 keeps endTime 100 and absorbs E3. -/
theorem c3_neighbor_cluster_counterexample :
    sortedByStart
      [⟨1, "E1", none, 0, 100, "TODO", []⟩,
       ⟨2, "E2", none, 10, 20, "TODO", []⟩,
       ⟨3, "E3", none, 30, 40, "TODO", []⟩] = true ∧
    specNeighborClusterCount
      [⟨1, "E1", none, 0, 100, "TODO", []⟩,
       ⟨2, "E2", none, 10, 20, "TODO", []⟩,
       ⟨3, "E3", none, 30, 40, "TODO", []⟩] = 2 ∧
    (sweep
      [⟨1, "E1", none, 0, 100, "TODO", []⟩,
       ⟨2, "E2", none, 10, 20, "TODO", []⟩,
       ⟨3, "E3", none, 30, 40, "TODO", []⟩] none).length = 1 := by
  decide

/-- C4 counterexample: on the startTime-sorted input A(5,10), B(6,5),
C(6,20), where B has an inverted range, the sweep emits all three events
unchanged and the outputs A and C overlap each other. -/
theorem c4_nonoverlap_counterexample :
    sortedByStart
      [⟨1, "A", none, 5, 10, "TODO", []⟩,
       ⟨2, "B", none, 6, 5, "TODO", []⟩,
       ⟨3, "C", none, 6, 20, "TODO", []⟩] = true ∧
    sweep
      [⟨1, "A", none, 5, 10, "TODO", []⟩,
       ⟨2, "B", none, 6, 5, "TODO", []⟩,
       ⟨3, "C", none, 6, 20, "TODO", []⟩] none =
      [⟨1, "A", none, 5, 10, "TODO", []⟩,
       ⟨2, "B", none, 6, 5, "TODO", []⟩,
       ⟨3, "C", none, 6, 20, "TODO", []⟩] ∧
    isOverlapping ⟨1, "A", none, 5, 10, "TODO", []⟩ ⟨3, "C", none, 6, 20, "TODO", []⟩ = true := by
  decide

theorem mem_removeOriginalEvents (orig merged : List Event) (i : Nat) :
    i ∈ removeOriginalEvents orig merged ↔
      (i ∈ orig.map Event.id ∧ i ∉ merged.map Event.id) := by
  simp [removeOriginalEvents]

theorem clustersGo_mem_flat (es : List Event) (acc h : Event) (t : List Event) :
    ∀ c ∈ clustersGo es acc h t, c.1 ∈ (h :: t) ++ es ∧ ∀ e ∈ c.2, e ∈ (h :: t) ++ es := by
  intro c hc
  have hflat := clustersGo_flat es acc h t
  constructor
  · rw [← hflat]
    exact List.mem_flatMap.mpr ⟨c, hc, List.mem_cons_self _ _⟩
  · intro e he
    rw [← hflat]
    exact List.mem_flatMap.mpr ⟨c, hc, List.mem_cons_of_mem _ he⟩

theorem clustersGo_tail_head_ne (es : List Event) (acc h : Event) (t : List Event)
    (hnd : (((h :: t) ++ es).map Event.id).Nodup) :
    ∀ c ∈ clustersGo es acc h t, ∀ e ∈ c.2, ∀ c' ∈ clustersGo es acc h t, e.id ≠ c'.1.id := by
  induction es generalizing acc h t with
  | nil =>
    intro c hc e he c' hc'
    simp only [clustersGo, List.mem_singleton] at hc hc'
    subst hc
    subst hc'
    simp only [List.append_nil, List.map_cons, List.nodup_cons] at hnd
    intro heq
    exact hnd.1 (heq ▸ List.mem_map_of_mem Event.id he)
  | cons f rest ih =>
    by_cases hov : isOverlapping acc f = true
    · rw [show clustersGo (f :: rest) acc h t = clustersGo rest (mergeEvents acc f) h (t ++ [f]) by
        simp [clustersGo, hov]]
      refine ih (mergeEvents acc f) h (t ++ [f]) ?_
      have : (h :: (t ++ [f])) ++ rest = (h :: t) ++ (f :: rest) := by simp
      rw [this]
      exact hnd
    · rw [show clustersGo (f :: rest) acc h t = (h, t) :: clustersGo rest f f [] by
        simp [clustersGo, hov]]
      rw [List.map_append, List.nodup_append] at hnd
      obtain ⟨hA, hB, hAB⟩ := hnd
      have hBnd : (((f :: ([] : List Event)) ++ rest).map Event.id).Nodup := by
        simpa using hB
      have hih := ih f f [] hBnd
      intro c hc e he c' hc'
      rcases List.mem_cons.mp hc with rfl | hc <;> rcases List.mem_cons.mp hc' with rfl | hc'
      · simp only [List.map_cons, List.nodup_cons] at hA
        intro heq
        exact hA.1 (heq ▸ List.mem_map_of_mem Event.id he)
      · have heA : e.id ∈ (h :: t).map Event.id := List.mem_map_of_mem Event.id (by
          exact List.mem_cons_of_mem _ he)
        have hc'1 : c'.1 ∈ (f :: ([] : List Event)) ++ rest := (clustersGo_mem_flat rest f f [] c' hc').1
        have hc'B : c'.1.id ∈ (f :: rest).map Event.id :=
          List.mem_map_of_mem Event.id (by simpa using hc'1)
        intro heq
        exact hAB heA (heq ▸ hc'B)
      · have he1 : e ∈ (f :: ([] : List Event)) ++ rest := (clustersGo_mem_flat rest f f [] c hc).2 e he
        have heB : e.id ∈ (f :: rest).map Event.id :=
          List.mem_map_of_mem Event.id (by simpa using he1)
        have hhA : Event.id (h, t).1 ∈ (h :: t).map Event.id :=
          List.mem_map_of_mem Event.id (List.mem_cons_self _ _)
        intro heq
        exact hAB hhA (heq ▸ heB)
      · exact hih c hc e he c' hc'

theorem clusters_tail_head_ne (events : List Event)
    (hnd : (events.map Event.id).Nodup) :
    ∀ c ∈ clusters events, ∀ e ∈ c.2, ∀ c' ∈ clusters events, e.id ≠ c'.1.id := by
  cases events with
  | nil => intro c hc; cases hc
  | cons f es =>
    exact clustersGo_tail_head_ne es f f [] (by simpa using hnd)

theorem sweep_map_id (events : List Event) :
    (sweep events none).map Event.id = (clusters events).map (fun c => c.1.id) := by
  rw [sweep_eq_clusters, List.map_map]
  exact List.map_congr_left (fun c _ => clusterAcc_id c)

/-- C3 (amended): for a fetched list sorted ascending by startTime, the
sweep returns exactly one event per accumulator-connected cluster - a
maximal run in which each event overlaps the accumulator of the events
merged before it, rather than merely its immediate neighbor - in the
order the clusters were opened, which is ascending by each cluster's
earliest start time. -/
theorem c3_one_event_per_cluster (events : List Event) (hs : sortedByStart events = true) :
    sweep events none = (clusters events).map clusterAcc ∧
    (sweep events none).length = (clusters events).length ∧
    (sweep events none).map Event.startTime = (clusters events).map (fun c => c.1.startTime) ∧
    (sweep events none).Pairwise (fun a b => a.startTime ≤ b.startTime) := by
  refine ⟨sweep_eq_clusters events, ?_, ?_, ?_⟩
  · rw [sweep_eq_clusters, List.length_map]
  · rw [sweep_eq_clusters, List.map_map]
    exact List.map_congr_left (fun c hc => clusterAcc_startTime_of_sorted events hs c hc)
  · cases events with
    | nil => simp [sweep]
    | cons e es =>
      have hp := sortedByStart_pairwise _ hs
      rw [show sweep (e :: es) none = sweep es (some e) from rfl]
      exact sweep_pairwise_start es e (List.pairwise_cons.mp hp).2 (List.pairwise_cons.mp hp).1

/-- Witness for the amended C3 at a concrete sorted input with a
containment chain, hypotheses discharged by evaluation. -/
theorem c3_one_event_per_cluster_witness :
    sortedByStart
      [⟨1, "E1", none, 0, 100, "TODO", []⟩,
       ⟨2, "E2", none, 10, 20, "TODO", []⟩,
       ⟨3, "E3", none, 110, 120, "TODO", []⟩] = true ∧
    (sweep
        [⟨1, "E1", none, 0, 100, "TODO", []⟩,
         ⟨2, "E2", none, 10, 20, "TODO", []⟩,
         ⟨3, "E3", none, 110, 120, "TODO", []⟩] none =
      (clusters
        [⟨1, "E1", none, 0, 100, "TODO", []⟩,
         ⟨2, "E2", none, 10, 20, "TODO", []⟩,
         ⟨3, "E3", none, 110, 120, "TODO", []⟩]).map clusterAcc ∧
    (sweep
        [⟨1, "E1", none, 0, 100, "TODO", []⟩,
         ⟨2, "E2", none, 10, 20, "TODO", []⟩,
         ⟨3, "E3", none, 110, 120, "TODO", []⟩] none).length =
      (clusters
        [⟨1, "E1", none, 0, 100, "TODO", []⟩,
         ⟨2, "E2", none, 10, 20, "TODO", []⟩,
         ⟨3, "E3", none, 110, 120, "TODO", []⟩]).length ∧
    (sweep
        [⟨1, "E1", none, 0, 100, "TODO", []⟩,
         ⟨2, "E2", none, 10, 20, "TODO", []⟩,
         ⟨3, "E3", none, 110, 120, "TODO", []⟩] none).map Event.startTime =
      (clusters
        [⟨1, "E1", none, 0, 100, "TODO", []⟩,
         ⟨2, "E2", none, 10, 20, "TODO", []⟩,
         ⟨3, "E3", none, 110, 120, "TODO", []⟩]).map (fun c => c.1.startTime) ∧
    (sweep
        [⟨1, "E1", none, 0, 100, "TODO", []⟩,
         ⟨2, "E2", none, 10, 20, "TODO", []⟩,
         ⟨3, "E3", none, 110, 120, "TODO", []⟩] none).Pairwise
      (fun a b => a.startTime ≤ b.startTime)) :=
  ⟨by decide,
   c3_one_event_per_cluster
     [⟨1, "E1", none, 0, 100, "TODO", []⟩,
      ⟨2, "E2", none, 10, 20, "TODO", []⟩,
      ⟨3, "E3", none, 110, 120, "TODO", []⟩] (by decide)⟩

/-- C4 (amended): for a fetched list sorted ascending by startTime whose
events all have startTime strictly below endTime (well-formed ranges),
the overlap predicate is false, in both directions, for every pair of
distinct events of the output of the sweep. -/
theorem c4_output_nonoverlapping (events : List Event) (hs : sortedByStart events = true)
    (hwf : ∀ e ∈ events, e.startTime < e.endTime) :
    (sweep events none).Pairwise
      (fun a b => isOverlapping a b = false ∧ isOverlapping b a = false) := by
  cases events with
  | nil => simp [sweep]
  | cons e es =>
    have hp := sortedByStart_pairwise _ hs
    rw [show sweep (e :: es) none = sweep es (some e) from rfl]
    have hmain := sweep_pairwise_endLe es e (List.pairwise_cons.mp hp).2
      (fun x hx => hwf x (List.mem_cons_of_mem _ hx)) (List.pairwise_cons.mp hp).1
    exact hmain.imp (fun h => isOverlapping_false_of_endLe _ _ h)

/-- Witness for the amended C4 at a concrete sorted well-formed input,
hypotheses discharged by evaluation. -/
theorem c4_output_nonoverlapping_witness :
    sortedByStart
      [⟨1, "A", none, 0, 10, "TODO", []⟩,
       ⟨2, "B", none, 5, 20, "TODO", []⟩,
       ⟨3, "C", none, 30, 40, "TODO", []⟩] = true ∧
    (∀ e ∈ [(⟨1, "A", none, 0, 10, "TODO", []⟩ : Event),
            ⟨2, "B", none, 5, 20, "TODO", []⟩,
            ⟨3, "C", none, 30, 40, "TODO", []⟩], e.startTime < e.endTime) ∧
    (sweep
        [⟨1, "A", none, 0, 10, "TODO", []⟩,
         ⟨2, "B", none, 5, 20, "TODO", []⟩,
         ⟨3, "C", none, 30, 40, "TODO", []⟩] none).Pairwise
      (fun a b => isOverlapping a b = false ∧ isOverlapping b a = false) :=
  ⟨by decide, by decide,
   c4_output_nonoverlapping
     [⟨1, "A", none, 0, 10, "TODO", []⟩,
      ⟨2, "B", none, 5, 20, "TODO", []⟩,
      ⟨3, "C", none, 30, 40, "TODO", []⟩] (by decide) (by decide)⟩

/-- C6: with the fetched events carrying pairwise distinct store ids, the
ids passed to delete are exactly the fetched ids absent from the emitted
ids; no emitted event's id is deleted (the accumulator reuses the id of
its cluster's earliest event); every non-head constituent of every
cluster is deleted; and a singleton cluster's event is emitted as-is,
content unchanged, with its id not deleted. -/
theorem c6_deletion_set (events : List Event) (hnd : (events.map Event.id).Nodup) :
    (∀ i : Nat, i ∈ removeOriginalEvents events (sweep events none) ↔
      (i ∈ events.map Event.id ∧ i ∉ (sweep events none).map Event.id)) ∧
    (∀ m ∈ sweep events none, m.id ∉ removeOriginalEvents events (sweep events none)) ∧
    (∀ c ∈ clusters events,
      c.1.id ∉ removeOriginalEvents events (sweep events none) ∧
      ∀ e ∈ c.2, e.id ∈ removeOriginalEvents events (sweep events none)) ∧
    (∀ c ∈ clusters events, c.2 = [] →
      c.1 ∈ sweep events none ∧
      c.1.id ∉ removeOriginalEvents events (sweep events none)) := by
  have hmem := mem_removeOriginalEvents events (sweep events none)
  have hhead_mem : ∀ c ∈ clusters events, c.1.id ∈ (sweep events none).map Event.id := by
    intro c hc
    rw [sweep_map_id]
    exact List.mem_map_of_mem _ hc
  refine ⟨hmem, ?_, ?_, ?_⟩
  · intro m hm hdel
    exact ((hmem m.id).mp hdel).2 (List.mem_map_of_mem Event.id hm)
  · intro c hc
    constructor
    · intro hdel
      exact ((hmem c.1.id).mp hdel).2 (hhead_mem c hc)
    · intro e he
      refine (hmem e.id).mpr ⟨?_, ?_⟩
      · exact List.mem_map_of_mem Event.id
          ((mem_clusters_sublist events c hc).subset (List.mem_cons_of_mem _ he))
      · intro hin
        rw [sweep_map_id] at hin
        obtain ⟨c', hc', hceq⟩ := List.mem_map.mp hin
        exact clusters_tail_head_ne events hnd c hc e he c' hc' hceq.symm
  · intro c hc h2
    have hac : clusterAcc c = c.1 := by
      simp [clusterAcc, h2]
    constructor
    · rw [sweep_eq_clusters]
      exact hac ▸ List.mem_map_of_mem clusterAcc hc
    · intro hdel
      exact ((hmem c.1.id).mp hdel).2 (hhead_mem c hc)

/-- Witness for C6 at a concrete two-event overlapping input with
distinct ids, hypotheses discharged by evaluation. -/
theorem c6_deletion_set_witness :
    (([⟨1, "A", none, 0, 10, "TODO", []⟩,
       ⟨2, "B", none, 5, 20, "TODO", []⟩] : List Event).map Event.id).Nodup ∧
    (2 ∈ removeOriginalEvents
        [⟨1, "A", none, 0, 10, "TODO", []⟩, ⟨2, "B", none, 5, 20, "TODO", []⟩]
        (sweep [⟨1, "A", none, 0, 10, "TODO", []⟩, ⟨2, "B", none, 5, 20, "TODO", []⟩] none) ↔
      (2 ∈ (([⟨1, "A", none, 0, 10, "TODO", []⟩,
              ⟨2, "B", none, 5, 20, "TODO", []⟩] : List Event).map Event.id) ∧
       2 ∉ (sweep [⟨1, "A", none, 0, 10, "TODO", []⟩,
              ⟨2, "B", none, 5, 20, "TODO", []⟩] none).map Event.id)) :=
  ⟨by decide,
   (c6_deletion_set
     [⟨1, "A", none, 0, 10, "TODO", []⟩, ⟨2, "B", none, 5, 20, "TODO", []⟩]
     (by decide)).1 2⟩

/-- C7: a user resolving to zero events in the store yields the empty
result sequence, an empty bulk-save argument, an empty deletion set, and
an unchanged store; the modelled operation is total on this path,
mirroring that the code raises no error. -/
theorem c7_zero_events_no_writes (store : List Event) (userId : Nat)
    (h : ∀ e ∈ store, userId ∉ e.invitees) :
    fetchEventsForUser store userId = [] ∧
    (mergeAllOverlappingEvents store userId).result = [] ∧
    (mergeAllOverlappingEvents store userId).savedEvents = [] ∧
    (mergeAllOverlappingEvents store userId).deletedIds = [] ∧
    (mergeAllOverlappingEvents store userId).finalStore = store := by
  have hfetch : fetchEventsForUser store userId = [] := by
    rw [fetchEventsForUser]
    have hfil : store.filter (fun e => e.invitees.contains userId) = [] := by
      rw [List.filter_eq_nil_iff]
      intro e he
      simpa using h e he
    rw [hfil]
    rfl
  refine ⟨hfetch, ?_, ?_, ?_, ?_⟩ <;>
    simp [mergeAllOverlappingEvents, hfetch, sweep, removeOriginalEvents, saveAll, deleteByIds]

/-- Witness for C7: a store whose only event does not invite user 9,
hypotheses discharged by evaluation. -/
theorem c7_zero_events_no_writes_witness :
    (∀ e ∈ [(⟨1, "A", none, 0, 10, "TODO", [5]⟩ : Event)], 9 ∉ e.invitees) ∧
    (fetchEventsForUser [⟨1, "A", none, 0, 10, "TODO", [5]⟩] 9 = [] ∧
     (mergeAllOverlappingEvents [⟨1, "A", none, 0, 10, "TODO", [5]⟩] 9).result = [] ∧
     (mergeAllOverlappingEvents [⟨1, "A", none, 0, 10, "TODO", [5]⟩] 9).savedEvents = [] ∧
     (mergeAllOverlappingEvents [⟨1, "A", none, 0, 10, "TODO", [5]⟩] 9).deletedIds = [] ∧
     (mergeAllOverlappingEvents [⟨1, "A", none, 0, 10, "TODO", [5]⟩] 9).finalStore =
       [⟨1, "A", none, 0, 10, "TODO", [5]⟩]) :=
  ⟨by decide, c7_zero_events_no_writes [⟨1, "A", none, 0, 10, "TODO", [5]⟩] 9 (by decide)⟩

theorem mem_dedupFirst (l : List Nat) : ∀ (seen : List Nat) (x : Nat),
    x ∈ dedupFirst l seen ↔ (x ∈ l ∧ x ∉ seen) := by
  induction l with
  | nil => intro seen x; simp [dedupFirst]
  | cons a as ih =>
    intro seen x
    by_cases ha : a ∈ seen
    · rw [show dedupFirst (a :: as) seen = dedupFirst as seen by simp [dedupFirst, ha]]
      rw [ih]
      constructor
      · exact fun hx => ⟨List.mem_cons_of_mem _ hx.1, hx.2⟩
      · rintro ⟨h1, h2⟩
        rcases List.mem_cons.mp h1 with rfl | h1
        · exact absurd ha h2
        · exact ⟨h1, h2⟩
    · rw [show dedupFirst (a :: as) seen = a :: dedupFirst as (a :: seen) by
        simp [dedupFirst, ha]]
      constructor
      · intro hx
        rcases List.mem_cons.mp hx with rfl | hx
        · exact ⟨List.mem_cons_self _ _, ha⟩
        · have := (ih (a :: seen) x).mp hx
          exact ⟨List.mem_cons_of_mem _ this.1,
            fun hs => this.2 (List.mem_cons_of_mem _ hs)⟩
      · rintro ⟨h1, h2⟩
        by_cases hxa : x = a
        · exact hxa ▸ List.mem_cons_self _ _
        · rcases List.mem_cons.mp h1 with rfl | h1
          · exact absurd rfl hxa
          · refine List.mem_cons_of_mem _ ((ih (a :: seen) x).mpr ⟨h1, ?_⟩)
            intro hs
            rcases List.mem_cons.mp hs with rfl | hs
            · exact hxa rfl
            · exact h2 hs

theorem nodup_dedupFirst (l : List Nat) : ∀ seen : List Nat, (dedupFirst l seen).Nodup := by
  induction l with
  | nil => intro seen; simp [dedupFirst]
  | cons a as ih =>
    intro seen
    by_cases ha : a ∈ seen
    · rw [show dedupFirst (a :: as) seen = dedupFirst as seen by simp [dedupFirst, ha]]
      exact ih seen
    · rw [show dedupFirst (a :: as) seen = a :: dedupFirst as (a :: seen) by
        simp [dedupFirst, ha]]
      refine List.nodup_cons.mpr ⟨?_, ih (a :: seen)⟩
      intro hmem
      exact ((mem_dedupFirst as (a :: seen) a).mp hmem).2 (List.mem_cons_self _ _)

theorem mem_jsSetUnion (a b : List Nat) (x : Nat) :
    x ∈ jsSetUnion a b ↔ (x ∈ a ∨ x ∈ b) := by
  rw [jsSetUnion, mem_dedupFirst]
  simp

theorem nodup_jsSetUnion (a b : List Nat) : (jsSetUnion a b).Nodup :=
  nodup_dedupFirst _ _

theorem foldl_merge_invitees_mem (t : List Event) (b : Event) (u : Nat) :
    u ∈ (t.foldl mergeEvents b).invitees ↔
      (u ∈ b.invitees ∨ ∃ e ∈ t, u ∈ e.invitees) := by
  induction t generalizing b with
  | nil => simp
  | cons x xs ih =>
    rw [List.foldl_cons, ih]
    simp only [mergeEvents_invitees, mem_jsSetUnion]
    constructor
    · rintro ((h | h) | ⟨e, he, hu⟩)
      · exact Or.inl h
      · exact Or.inr ⟨x, List.mem_cons_self _ _, h⟩
      · exact Or.inr ⟨e, List.mem_cons_of_mem _ he, hu⟩
    · rintro (h | ⟨e, he, hu⟩)
      · exact Or.inl (Or.inl h)
      · rcases List.mem_cons.mp he with rfl | he
        · exact Or.inl (Or.inr hu)
        · exact Or.inr ⟨e, he, hu⟩

theorem foldl_merge_invitees_nodup (t : List Event) (b : Event) (hb : b.invitees.Nodup) :
    (t.foldl mergeEvents b).invitees.Nodup := by
  induction t generalizing b with
  | nil => exact hb
  | cons x xs ih =>
    rw [List.foldl_cons]
    refine ih (mergeEvents b x) ?_
    simp only [mergeEvents_invitees]
    exact nodup_jsSetUnion _ _

/-- C8: assuming each fetched event's invitee list is duplicate-free (the
data model's many-to-many relation, deduplicated by identity), every
output event of the sweep is the accumulator of its cluster, its invitee
list is duplicate-free, and its members are exactly the union of the
invitees of the events of that cluster; only the set is guaranteed, not
an order. -/
theorem c8_invitee_union (events : List Event)
    (hinv : ∀ e ∈ events, e.invitees.Nodup) :
    sweep events none = (clusters events).map clusterAcc ∧
    ∀ c ∈ clusters events,
      (clusterAcc c).invitees.Nodup ∧
      ∀ u : Nat, u ∈ (clusterAcc c).invitees ↔ ∃ e ∈ c.1 :: c.2, u ∈ e.invitees := by
  refine ⟨sweep_eq_clusters events, ?_⟩
  intro c hc
  have hc1 : c.1 ∈ events :=
    (mem_clusters_sublist events c hc).subset (List.mem_cons_self _ _)
  constructor
  · exact foldl_merge_invitees_nodup c.2 c.1 (hinv c.1 hc1)
  · intro u
    rw [show clusterAcc c = c.2.foldl mergeEvents c.1 from rfl, foldl_merge_invitees_mem]
    constructor
    · rintro (h | ⟨e, he, hu⟩)
      · exact ⟨c.1, List.mem_cons_self _ _, h⟩
      · exact ⟨e, List.mem_cons_of_mem _ he, hu⟩
    · rintro ⟨e, he, hu⟩
      rcases List.mem_cons.mp he with rfl | he
      · exact Or.inl hu
      · exact Or.inr ⟨e, he, hu⟩

/-- Witness for C8 on two overlapping events with overlapping invitee
sets, hypotheses discharged by evaluation. -/
theorem c8_invitee_union_witness :
    (∀ e ∈ [(⟨1, "A", none, 0, 10, "TODO", [5, 6]⟩ : Event),
            ⟨2, "B", none, 5, 20, "TODO", [6, 7]⟩], e.invitees.Nodup) ∧
    (sweep [⟨1, "A", none, 0, 10, "TODO", [5, 6]⟩,
            ⟨2, "B", none, 5, 20, "TODO", [6, 7]⟩] none =
      (clusters [⟨1, "A", none, 0, 10, "TODO", [5, 6]⟩,
                 ⟨2, "B", none, 5, 20, "TODO", [6, 7]⟩]).map clusterAcc ∧
    ∀ c ∈ clusters [⟨1, "A", none, 0, 10, "TODO", [5, 6]⟩,
                    ⟨2, "B", none, 5, 20, "TODO", [6, 7]⟩],
      (clusterAcc c).invitees.Nodup ∧
      ∀ u : Nat, u ∈ (clusterAcc c).invitees ↔ ∃ e ∈ c.1 :: c.2, u ∈ e.invitees) :=
  ⟨by decide,
   c8_invitee_union
     [⟨1, "A", none, 0, 10, "TODO", [5, 6]⟩, ⟨2, "B", none, 5, 20, "TODO", [6, 7]⟩]
     (by decide)⟩

theorem findOne_none (store : List Event) (id : Nat) (h : ∀ e ∈ store, e.id ≠ id) :
    findOne store id = Except.error ("Event with ID " ++ toString id ++ " not found") := by
  unfold findOne
  have hf : store.find? (fun e => e.id == id) = none := by
    rw [List.find?_eq_none]
    intro e he
    simpa using h e he
  rw [hf]

theorem findOne_some (store : List Event) (id : Nat) (e : Event)
    (he : store.find? (fun x => x.id == id) = some e) :
    findOne store id = Except.ok e := by
  unfold findOne
  rw [he]

/-- C9: findOne on an id matching no stored event returns the recoverable
not-found error naming the id; on a stored id it returns the first stored
event carrying that id (the model's events always include their invitee
relation) and raises no error. -/
theorem c9_findOne_contract (store : List Event) (id : Nat) :
    ((∀ e ∈ store, e.id ≠ id) →
      findOne store id = Except.error ("Event with ID " ++ toString id ++ " not found")) ∧
    (∀ e : Event, store.find? (fun x => x.id == id) = some e →
      (findOne store id = Except.ok e ∧ e ∈ store ∧ e.id = id)) := by
  constructor
  · exact findOne_none store id
  · intro e he
    refine ⟨findOne_some store id e he, List.mem_of_find?_eq_some he, ?_⟩
    have := List.find?_some he
    simpa using this

/-- Witness for C9: a one-event store, looked up at a missing and at a
present id, hypotheses discharged by evaluation. -/
theorem c9_findOne_contract_witness :
    findOne [⟨1, "A", none, 0, 10, "TODO", [5]⟩] 9 =
      Except.error ("Event with ID " ++ toString 9 ++ " not found") ∧
    findOne [⟨1, "A", none, 0, 10, "TODO", [5]⟩] 1 =
      Except.ok ⟨1, "A", none, 0, 10, "TODO", [5]⟩ :=
  ⟨(c9_findOne_contract [⟨1, "A", none, 0, 10, "TODO", [5]⟩] 9).1 (by decide),
   ((c9_findOne_contract [⟨1, "A", none, 0, 10, "TODO", [5]⟩] 1).2
     ⟨1, "A", none, 0, 10, "TODO", [5]⟩ (by decide)).1⟩

theorem find?_map_patch (store : List Event) (id : Nat) (patch : Event → Event)
    (hid : ∀ e : Event, (patch e).id = e.id) (e : Event)
    (he : store.find? (fun x => x.id == id) = some e) :
    (store.map (fun x => if x.id == id then patch x else x)).find? (fun x => x.id == id) =
      some (patch e) := by
  induction store with
  | nil => simp at he
  | cons a as ih =>
    rw [List.map_cons]
    by_cases ha : a.id = id
    · have hbeq : (a.id == id) = true := beq_iff_eq.mpr ha
      have hpid : ((patch a).id == id) = true := beq_iff_eq.mpr (by rw [hid a]; exact ha)
      simp only [List.find?_cons, hbeq] at he
      obtain rfl : a = e := by simpa using he
      simp [List.find?_cons, hbeq, hpid]
    · have hbeq : (a.id == id) = false := by simpa using ha
      simp only [List.find?_cons, hbeq] at he
      simp only [List.find?_cons, hbeq, Bool.false_eq_true, if_false]
      exact ih he

/-- C10: provided the update data does not change the identifier column,
update on an id matching no stored event propagates the not-found error
of the post-update lookup (it never produces a success without an event,
despite the nullable declared return type), and update on a stored id
returns the freshly re-fetched event, i.e. the patched first record
carrying that id. -/
theorem c10_update_refetch (store : List Event) (id : Nat) (patch : Event → Event)
    (hid : ∀ e : Event, (patch e).id = e.id) :
    ((∀ e ∈ store, e.id ≠ id) →
      (update store id patch).2 =
        Except.error ("Event with ID " ++ toString id ++ " not found")) ∧
    (∀ e : Event, store.find? (fun x => x.id == id) = some e →
      (update store id patch).2 = Except.ok (patch e)) := by
  constructor
  · intro h
    refine findOne_none _ id ?_
    intro x hx
    obtain ⟨y, hy, rfl⟩ := List.mem_map.mp hx
    by_cases hyid : y.id = id
    · exact absurd hyid (h y hy)
    · have : ¬((y.id == id) = true) := by simpa using hyid
      rw [if_neg this]
      exact hyid
  · intro e he
    exact findOne_some _ id (patch e) (find?_map_patch store id patch hid e he)

/-- Witness for C10: a one-event store patched at a missing and at a
present id with a title-only patch, hypotheses discharged by evaluation
and by reflexivity of the patch's id preservation. -/
theorem c10_update_refetch_witness :
    (∀ e : Event, ((fun x : Event => { x with title := "Z" }) e).id = e.id) ∧
    (update [⟨1, "A", none, 0, 10, "TODO", [5]⟩] 9
        (fun x : Event => { x with title := "Z" })).2 =
      Except.error ("Event with ID " ++ toString 9 ++ " not found") ∧
    (update [⟨1, "A", none, 0, 10, "TODO", [5]⟩] 1
        (fun x : Event => { x with title := "Z" })).2 =
      Except.ok ⟨1, "Z", none, 0, 10, "TODO", [5]⟩ :=
  ⟨fun _ => rfl,
   (c10_update_refetch [⟨1, "A", none, 0, 10, "TODO", [5]⟩] 9
     (fun x : Event => { x with title := "Z" }) (fun _ => rfl)).1 (by decide),
   (c10_update_refetch [⟨1, "A", none, 0, 10, "TODO", [5]⟩] 1
     (fun x : Event => { x with title := "Z" }) (fun _ => rfl)).2
     ⟨1, "A", none, 0, 10, "TODO", [5]⟩ (by decide)⟩

end EventService
